import Mathlib

/-
Verification of the pipeline abstraction described in spec.md, as exercised by
src/examples/tutorials/03_ready_to_use_model_torch.ipynb.

The repository source contains only the notebook (call sites); the pipeline
engine itself (the dataset library: Pipeline, opensets, metrics, models) is not
included in src/.  All definitions below are therefore modelled from the spec:
they formalise, faithfully to the spec's words, the data model and the observable
call surface the spec attributes to that engine, and the claims are settled
against this model.
-/

set_option maxRecDepth 10000

/-- Modelled from the spec: runtime values held by pipeline named variables.
The engine is missing from src/; the spec describes variables holding scalars
(a loss), arrays of numbers (predictions), generic lists (a loss history built
by append mode), and a metrics accumulator of prediction/target pairs. -/
inductive Value where
  | none
  | nat (n : Nat)
  | nats (xs : List Nat)
  | list (xs : List Value)
  | metrics (pairs : List (Nat × Nat))

/-- Modelled from the spec: the declared steps of a pipeline, an ordered list
accumulated by the builder chain (init_variable, init_model, to_array,
train_model, update_variable, import_model, predict_model, gather_metrics).
The engine implementing them is missing from src/. -/
inductive Step where
  | initVariable (name : String) (initOnEachRun : Option Value)
  | initModel (name : String)
  | toArray
  | trainModel (name : String) (saveTo : String) (useLock : Bool)
  | updateVariable (name : String) (src : String) (mode : Char)
  | importModel (name : String)
  | predictModel (name : String) (saveTo : String)
  | gatherMetrics (predsFrom : String) (saveTo : String) (mode : Char)

/-- Modelled from the spec: a model instance, a mutable value updated by
training steps.  The learning internals are an explicit non-goal of the spec,
so the weight state is kept abstract as data. -/
structure Model where
  weights : List Nat

/-- The shared model store: model instances addressed by numeric identity.
Model handles held by pipelines are names mapped to these identities, which is
how the spec's sharing by reference is modelled. -/
def Store := List (Nat × Model)

/-- Modelled from the spec: the external framework behaviour the notebook calls
into (one gradient step returning an updated model and a loss, a forward pass
producing a predicted class, and the corpus labels).  None of this is in src/,
and the claims are parametric in it. -/
structure Framework where
  initModel : Model
  trainStep : Model → List Nat → Model × Nat
  predict : Model → Nat → Nat
  label : Nat → Nat

/-- Modelled from the spec: a pipeline is an ordered list of steps with a
configuration, an optional data source (a template has none), its named
variables and its model references. -/
structure Pipeline where
  config : List (String × String)
  steps : List Step
  source : Option (List Nat)
  vars : List (String × Value)
  refs : List (String × Nat)

/-- Modelled from the spec: a dataset holding disjoint train/test partitions of
labeled samples, identified here by sample indices. -/
structure Dataset where
  nTrain : Nat
  nTest : Nat

def Dataset.trainIdx (d : Dataset) : List Nat := List.range d.nTrain

def Dataset.testIdx (d : Dataset) : List Nat :=
  (List.range d.nTest).map (fun i => i + d.nTrain)

def Dataset.allIdx (d : Dataset) : List Nat := List.range (d.nTrain + d.nTest)

/-- Modelled from the spec: MNIST dataset construction with no arguments; the
corpus is fixed (60000 training and 10000 test samples, per the run outputs
recorded in the notebook). -/
def MNISTset : Dataset := { nTrain := 60000, nTest := 10000 }

def lookupVar : List (String × Value) → String → Value
  | [], _ => Value.none
  | (k, v) :: rest, n => if n = k then v else lookupVar rest n

def setVar (vs : List (String × Value)) (n : String) (v : Value) :
    List (String × Value) :=
  (n, v) :: vs

def lookupRef : List (String × Nat) → String → Option Nat
  | [], _ => Option.none
  | (k, i) :: rest, n => if n = k then Option.some i else lookupRef rest n

def storeGet : Store → Nat → Option Model
  | [], _ => Option.none
  | (k, m) :: rest, i => if i = k then Option.some m else storeGet rest i

def storeSet (st : Store) (i : Nat) (m : Model) : Store := (i, m) :: st

def freshId (st : Store) : Nat :=
  List.foldr (fun (e : Nat × Model) a => max a (e.1 + 1)) 0 st

/-- Batching with an explicit fuel argument (one unit per produced chunk is
enough since every chunk consumes at least one element when the size is
positive); keeps the function structurally recursive and evaluable. -/
def chunkAux : Nat → Nat → List Nat → List (List Nat)
  | 0, _, _ => []
  | fuel + 1, b, xs =>
    if xs = [] then [] else xs.take b :: chunkAux fuel b (xs.drop b)

/-- Modelled from the spec: split an epoch's sample order into successive
batches of the requested size; the final batch may be incomplete. -/
def chunkList (b : Nat) (xs : List Nat) : List (List Nat) :=
  chunkAux xs.length b xs

/-- Modelled from the spec: the batches one epoch processes; with drop_last the
final incomplete batch is dropped. -/
def batches (b : Nat) (dropLast : Bool) (xs : List Nat) : List (List Nat) :=
  if dropLast then (chunkList b xs).filter (fun c => c.length == b)
  else chunkList b xs

/-- Modelled from the spec: the named options accepted by run besides the
positional batch size. -/
structure RunOpts where
  shuffle : Bool
  n_epochs : Nat
  drop_last : Bool
  bar : Bool
  prefetch : Nat

def epochOrder (sf : Nat → List Nat → List Nat) (shuffle : Bool) (e : Nat)
    (src : List Nat) : List Nat :=
  if shuffle then sf e src else src

/-- Modelled from the spec: the full sequence of batches a run processes, one
epoch after another, each epoch over the (optionally shuffled) source order. -/
def runBatches (sf : Nat → List Nat → List Nat) (src : List Nat) (b : Nat)
    (opts : RunOpts) : List (List Nat) :=
  (List.range opts.n_epochs).flatMap
    (fun e => batches b opts.drop_last (epochOrder sf opts.shuffle e src))

/-- The mutable state threaded through a run: the pipeline's named variables,
the shared model store and the pipeline's model references. -/
structure RunState where
  vars : List (String × Value)
  store : Store
  refs : List (String × Nat)

def toNats : Value → List Nat
  | Value.nats xs => xs
  | _ => []

/-- Modelled from the spec: update mode append adds the new value to the
variable's current contents rather than replacing them; appending to a metrics
accumulator merges the accumulated prediction/target pairs.  Any other mode
writes the value. -/
def appendValue : Value → Value → Value
  | Value.list l, v => Value.list (l ++ [v])
  | Value.metrics ps, Value.metrics qs => Value.metrics (ps ++ qs)
  | Value.none, Value.metrics qs => Value.metrics qs
  | _, v => v

/-- Modelled from the spec: the effect of one declared step on the run state
for one batch of sample indices.  Declarations (init_variable, init_model,
import_model) act at build or run start, not per batch; to_array only changes
the in-memory representation of the batch. -/
def execStep (fw : Framework) (batch : List Nat) (st : RunState) :
    Step → RunState
  | Step.initVariable _ _ => st
  | Step.initModel _ => st
  | Step.importModel _ => st
  | Step.toArray => st
  | Step.trainModel mn saveTo _ =>
    match lookupRef st.refs mn with
    | Option.none => st
    | Option.some i =>
      match storeGet st.store i with
      | Option.none => st
      | Option.some m =>
        let r := fw.trainStep m batch
        { st with store := storeSet st.store i r.1,
                  vars := setVar st.vars saveTo (Value.nat r.2) }
  | Step.updateVariable n src mode =>
    let v := lookupVar st.vars src
    let w := if mode = 'a' then appendValue (lookupVar st.vars n) v else v
    { st with vars := setVar st.vars n w }
  | Step.predictModel mn saveTo =>
    match lookupRef st.refs mn with
    | Option.none => st
    | Option.some i =>
      match storeGet st.store i with
      | Option.none => st
      | Option.some m =>
        let w := Value.nats (batch.map (fw.predict m))
        { st with vars := setVar st.vars saveTo w }
  | Step.gatherMetrics predsFrom saveTo mode =>
    let preds := toNats (lookupVar st.vars predsFrom)
    let pairs := preds.zip (batch.map fw.label)
    let w := if mode = 'a' then appendValue (lookupVar st.vars saveTo) (Value.metrics pairs)
             else Value.metrics pairs
    { st with vars := setVar st.vars saveTo w }

def execBatch (fw : Framework) (steps : List Step) (batch : List Nat)
    (st : RunState) : RunState :=
  steps.foldl (fun s stp => execStep fw batch s stp) st

/-- Modelled from the spec: at the start of each run, every variable declared
with a reset-per-run policy is re-initialized from that policy; variables
declared without one persist. -/
def initVars (steps : List Step) (vars : List (String × Value)) :
    List (String × Value) :=
  steps.foldl
    (fun vs s =>
      match s with
      | Step.initVariable n (Option.some v) => setVar vs n v
      | _ => vs)
    vars

/-- Modelled from the spec: model initialization steps create the named model
instance in the shared store on the first run and record the reference. -/
def initModels (fw : Framework) (steps : List Step) (st : RunState) : RunState :=
  steps.foldl
    (fun s stp =>
      match stp with
      | Step.initModel n =>
        match lookupRef s.refs n with
        | Option.some _ => s
        | Option.none =>
          let i := freshId s.store
          { s with refs := (n, i) :: s.refs,
                   store := storeSet s.store i fw.initModel }
      | _ => s)
    st

def runInit (fw : Framework) (steps : List Step) (st : RunState) : RunState :=
  initModels fw steps { st with vars := initVars steps st.vars }

/-- Modelled from the spec: running a pipeline.  A template (no data source)
cannot execute.  A bound pipeline iterates the epochs' batches in order,
folding each declared step over each batch, and returns the pipeline itself
with its updated variable state, the updated model store, and the number of
progress ticks displayed (one per batch when bar is set, none otherwise). -/
def Pipeline.run (p : Pipeline) (fw : Framework)
    (sf : Nat → List Nat → List Nat) (store : Store) (b : Nat)
    (opts : RunOpts) : Option (Pipeline × Store × Nat) :=
  match p.source with
  | Option.none => Option.none
  | Option.some src =>
    let st0 := runInit fw p.steps { vars := p.vars, store := store, refs := p.refs }
    let bs := runBatches sf src b opts
    let stF := bs.foldl (fun s batch => execBatch fw p.steps batch s) st0
    Option.some
      ({ p with vars := stF.vars, refs := stF.refs }, stF.store,
       if opts.bar then bs.length else 0)

/-- Modelled from the spec: pipeline construction from a config, with no data
source — a template. -/
def Pipeline.create (config : List (String × String)) : Pipeline :=
  { config := config, steps := [], source := Option.none, vars := [], refs := [] }

/-- Modelled from the spec: binding a template to a concrete dataset subset
(the left-shift operator of the notebook) produces an executable pipeline. -/
def Pipeline.bindTo (p : Pipeline) (src : List Nat) : Pipeline :=
  { p with source := Option.some src }

/-- Modelled from the spec: the shorthand that produces a pipeline bound
directly to a dataset subset (the subset's p property in the notebook). -/
def pipelineOf (src : List Nat) : Pipeline :=
  { config := [], steps := [], source := Option.some src, vars := [], refs := [] }

def Pipeline.init_variable (p : Pipeline) (n : String) (pol : Option Value) :
    Pipeline :=
  { p with steps := p.steps ++ [Step.initVariable n pol] }

def Pipeline.init_model (p : Pipeline) (n : String) : Pipeline :=
  { p with steps := p.steps ++ [Step.initModel n] }

def Pipeline.to_array (p : Pipeline) : Pipeline :=
  { p with steps := p.steps ++ [Step.toArray] }

def Pipeline.train_model (p : Pipeline) (n saveTo : String) (useLock : Bool) :
    Pipeline :=
  { p with steps := p.steps ++ [Step.trainModel n saveTo useLock] }

def Pipeline.update_variable (p : Pipeline) (n src : String) (mode : Char) :
    Pipeline :=
  { p with steps := p.steps ++ [Step.updateVariable n src mode] }

/-- Modelled from the spec: importing a model exports the handle into this
pipeline by reference — the reference (name and model identity) of the source
pipeline is copied, never the model instance itself. -/
def Pipeline.import_model (p : Pipeline) (n : String) (src : Pipeline) :
    Pipeline :=
  { p with steps := p.steps ++ [Step.importModel n],
           refs :=
             match lookupRef src.refs n with
             | Option.some i => (n, i) :: p.refs
             | Option.none => p.refs }

def Pipeline.predict_model (p : Pipeline) (n saveTo : String) : Pipeline :=
  { p with steps := p.steps ++ [Step.predictModel n saveTo] }

def Pipeline.gather_metrics (p : Pipeline) (predsFrom saveTo : String)
    (mode : Char) : Pipeline :=
  { p with steps := p.steps ++ [Step.gatherMetrics predsFrom saveTo mode] }

def Pipeline.get_variable (p : Pipeline) (n : String) : Value :=
  lookupVar p.vars n

/-- Resolve a model handle through a pipeline: the name gives the identity,
the store gives the instance. -/
def resolveModel (p : Pipeline) (store : Store) (n : String) : Option Model :=
  match lookupRef p.refs n with
  | Option.some i => storeGet store i
  | Option.none => Option.none

/-- Modelled from the spec: a file written by model persistence. -/
structure SavedFile where
  path : String
  content : Model

/-- Modelled from the spec: save_model persists the model registered under the
name to the given path; the pipeline and the store are returned untouched. -/
def Pipeline.save_model (p : Pipeline) (store : Store) (n path : String) :
    Option SavedFile × Pipeline × Store :=
  match resolveModel p store n with
  | Option.some m => (Option.some { path := path, content := m }, p, store)
  | Option.none => (Option.none, p, store)

/-- The model identities referenced by at least one live pipeline. -/
def liveIds (ps : List Pipeline) : List Nat :=
  ps.flatMap (fun p => p.refs.map (fun r => r.2))

/-- Modelled from the spec: a model instance lives as long as some referencing
pipeline does; reclaiming the store keeps exactly the referenced instances. -/
def collect (ps : List Pipeline) (store : Store) : Store :=
  store.filter (fun e => decide (e.1 ∈ liveIds ps))

/-- The accumulated prediction/target pairs held by a metrics value. -/
def metricPairs : Value → List (Nat × Nat)
  | Value.metrics ps => ps
  | _ => []

/-- Modelled from the spec: accuracy over accumulated prediction/target pairs. -/
def accuracy (ps : List (Nat × Nat)) : ℚ :=
  (ps.countP (fun p => p.1 == p.2) : ℚ) / (ps.length : ℚ)

def falsePos (ps : List (Nat × Nat)) (c : Nat) : Nat :=
  ps.countP (fun p => p.1 == c && !(p.2 == c))

def falseNeg (ps : List (Nat × Nat)) (c : Nat) : Nat :=
  ps.countP (fun p => !(p.1 == c) && p.2 == c)

def truePos (ps : List (Nat × Nat)) (c : Nat) : Nat :=
  ps.countP (fun p => p.1 == c && p.2 == c)

def trueNeg (ps : List (Nat × Nat)) (c : Nat) : Nat :=
  ps.countP (fun p => !(p.1 == c) && !(p.2 == c))

/-- Modelled from the spec: the false-positive rate of one class. -/
def fprOf (ps : List (Nat × Nat)) (c : Nat) : ℚ :=
  (falsePos ps c : ℚ) / ((falsePos ps c : ℚ) + (trueNeg ps c : ℚ))

/-- Modelled from the spec: the false-negative rate of one class. -/
def fnrOf (ps : List (Nat × Nat)) (c : Nat) : ℚ :=
  (falseNeg ps c : ℚ) / ((falseNeg ps c : ℚ) + (truePos ps c : ℚ))

/-- The answer to one named metrics query: a scalar, or one value per class. -/
inductive MetricResult where
  | scalar (x : ℚ)
  | perClass (xs : List ℚ)

/-- Modelled from the spec: one named evaluation query over the accumulated
pairs; accuracy yields a scalar, and the per-class false-positive and
false-negative rates are yielded when queried with multiclass set to None. -/
def evalOne (ps : List (Nat × Nat)) (nClasses : Nat) (multiclass : Option String)
    (name : String) : Option MetricResult :=
  if name = "accuracy" then Option.some (MetricResult.scalar (accuracy ps))
  else if name = "false_positive_rate" ∧ multiclass = Option.none then
    Option.some (MetricResult.perClass ((List.range nClasses).map (fprOf ps)))
  else if name = "false_negative_rate" ∧ multiclass = Option.none then
    Option.some (MetricResult.perClass ((List.range nClasses).map (fnrOf ps)))
  else Option.none

/-- Modelled from the spec: the list form of the evaluate query, answering each
recognized name. -/
def evalMany (ps : List (Nat × Nat)) (nClasses : Nat)
    (multiclass : Option String) (names : List String) :
    List (String × MetricResult) :=
  names.filterMap (fun n => (evalOne ps nClasses multiclass n).map (fun r => (n, r)))

/-- Scheduler state of one training run: how many batches the prefetch side has
prepared, how many the consuming side has fully updated on, and the batch
currently holding the model-update lock, if any. -/
structure Sched where
  prepared : Nat
  consumed : Nat
  inUpdate : Option Nat

/-- Events of a training run's schedule: a batch prepared ahead by prefetch, a
model update acquiring the lock, and a model update releasing it. -/
inductive Ev where
  | prep (i : Nat)
  | ustart (i : Nat)
  | uend (i : Nat)
deriving DecidableEq

/-- Modelled from the spec: the interleavings a run with prefetch depth k over
n batches admits.  Prefetch may prepare a batch whenever it is less than k
ahead of consumption; an update may start only on a prepared batch and only
when no update holds the lock; an update ends by releasing the lock. -/
inductive SStep (k n : Nat) : Sched → Ev → Sched → Prop where
  | prep (s : Sched) (h1 : s.prepared < n) (h2 : s.prepared < s.consumed + 1 + k) :
      SStep k n s (Ev.prep s.prepared)
        { prepared := s.prepared + 1, consumed := s.consumed, inUpdate := s.inUpdate }
  | ustart (s : Sched) (h1 : s.inUpdate = Option.none) (h2 : s.consumed < s.prepared) :
      SStep k n s (Ev.ustart s.consumed)
        { prepared := s.prepared, consumed := s.consumed,
          inUpdate := Option.some s.consumed }
  | uend (s : Sched) (i : Nat) (h : s.inUpdate = Option.some i) :
      SStep k n s (Ev.uend i)
        { prepared := s.prepared, consumed := i + 1, inUpdate := Option.none }

/-- The schedules reachable from the initial state, with their event traces. -/
inductive Reach (k n : Nat) : List Ev → Sched → Prop where
  | init : Reach k n [] { prepared := 0, consumed := 0, inUpdate := Option.none }
  | step (tr : List Ev) (s : Sched) (e : Ev) (s' : Sched) :
      Reach k n tr s → SStep k n s e s' → Reach k n (tr ++ [e]) s'

def isUpd : Ev → Bool
  | Ev.prep _ => false
  | _ => true

/-- The fully serialized update trace a schedule state accounts for: the lock
sections of batches zero up to the consumed count, in batch order, one closed
after another, plus the one currently open section if the lock is held. -/
def serialProj (s : Sched) : List Ev :=
  (List.range s.consumed).flatMap (fun i => [Ev.ustart i, Ev.uend i]) ++
    (if s.inUpdate.isSome then [Ev.ustart s.consumed] else [])

/-- The losses a run's batches produce, threading the model through the
training steps one batch after another. -/
def lossesFrom (fw : Framework) : Model → List (List Nat) → List Nat
  | _, [] => []
  | m, b :: bs =>
    let r := fw.trainStep m b
    r.2 :: lossesFrom fw r.1 bs

/-- The model state after a run's batches, threading the training steps one
batch after another. -/
def modelAfter (fw : Framework) : Model → List (List Nat) → Model
  | m, [] => m
  | m, b :: bs => modelAfter fw (fw.trainStep m b).1 bs

/-- The prediction/target pairs one batch contributes to the metrics
accumulator: the model's predicted class and the corpus label of each sample. -/
def predPairs (fw : Framework) (m : Model) (b : List Nat) : List (Nat × Nat) :=
  (b.map (fw.predict m)).zip (b.map fw.label)

/-- The declared steps of the notebook's training template (cell 15). -/
def train_steps : List Step :=
  [ Step.initVariable "loss_history" (Option.some (Value.list [])),
    Step.initVariable "current_loss" Option.none,
    Step.initModel "conv_nn",
    Step.toArray,
    Step.trainModel "conv_nn" "current_loss" true,
    Step.updateVariable "loss_history" "current_loss" 'a' ]

/-- The notebook's training template (cell 15): the builder chain applied to a
fresh pipeline with a config, with no data source. -/
def train_template : Pipeline :=
  ((((((Pipeline.create [("model", "VGG7")]).init_variable "loss_history"
        (Option.some (Value.list []))).init_variable "current_loss"
        Option.none).init_model "conv_nn").to_array).train_model "conv_nn"
        "current_loss" true).update_variable "loss_history" "current_loss" 'a'

/-- The notebook's bound training pipeline (cell 18): the template bound to the
train subset. -/
def train_pipeline : Pipeline := train_template.bindTo MNISTset.trainIdx

/-- The declared steps of the notebook's test pipeline (cell 25). -/
def test_steps : List Step :=
  [ Step.importModel "conv_nn",
    Step.initVariable "predictions" Option.none,
    Step.initVariable "metrics" (Option.some Value.none),
    Step.toArray,
    Step.predictModel "conv_nn" "predictions",
    Step.gatherMetrics "predictions" "metrics" 'a' ]

/-- The run options the notebook passes in cell 20. -/
def train_opts : RunOpts :=
  { shuffle := true, n_epochs := 1, drop_last := true, bar := true, prefetch := 1 }

/-- A concrete framework instance used to evaluate the model on closed inputs;
the claims themselves are parametric in the framework. -/
def fwX : Framework :=
  { initModel := { weights := [] },
    trainStep := fun m b => ({ weights := m.weights ++ [b.length] }, b.length),
    predict := fun m s => (s + m.weights.length) % 10,
    label := fun s => s % 10 }

lemma chunkAux_nil (fuel b : Nat) : chunkAux fuel b [] = [] := by
  cases fuel <;> simp [chunkAux]

lemma chunkAux_congr (f1 : Nat) : ∀ (f2 b : Nat) (xs : List Nat), 0 < b →
    xs.length ≤ f1 → xs.length ≤ f2 → chunkAux f1 b xs = chunkAux f2 b xs := by
  induction f1 with
  | zero =>
    intro f2 b xs _ h1 _
    have hx : xs = [] := List.eq_nil_of_length_eq_zero (Nat.le_zero.mp h1)
    subst hx
    simp [chunkAux_nil]
  | succ f ih =>
    intro f2 b xs hb h1 h2
    cases xs with
    | nil => simp [chunkAux_nil]
    | cons x rest =>
      cases f2 with
      | zero => simp at h2
      | succ g =>
        have hlen : ((x :: rest).drop b).length ≤ f := by
          have : ((x :: rest).drop b).length = (x :: rest).length - b := by
            simp
          omega
        have hlen2 : ((x :: rest).drop b).length ≤ g := by
          have : ((x :: rest).drop b).length = (x :: rest).length - b := by
            simp
          omega
        simp only [chunkAux]
        rw [ih g b _ hb hlen hlen2]

lemma chunkList_eq (b : Nat) (xs : List Nat) (hb : 0 < b) (hx : xs ≠ []) :
    chunkList b xs = xs.take b :: chunkList b (xs.drop b) := by
  unfold chunkList
  cases xs with
  | nil => exact absurd rfl hx
  | cons x rest =>
    simp only [chunkAux, List.length_cons, if_neg (List.cons_ne_nil x rest)]
    have h1 : ((x :: rest).drop b).length ≤ rest.length := by
      simp
      omega
    exact congrArg _ (chunkAux_congr rest.length _ b _ hb h1 (Nat.le_refl _))

lemma chunkList_flatten (b : Nat) (hb : 0 < b) : ∀ xs : List Nat,
    (chunkList b xs).flatten = xs := by
  have H : ∀ (n : Nat) (xs : List Nat), xs.length ≤ n →
      (chunkList b xs).flatten = xs := by
    intro n
    induction n with
    | zero =>
      intro xs h
      have hx : xs = [] := List.eq_nil_of_length_eq_zero (Nat.le_zero.mp h)
      subst hx
      simp [chunkList, chunkAux]
    | succ m ih =>
      intro xs h
      by_cases hx : xs = []
      · subst hx; simp [chunkList, chunkAux]
      · rw [chunkList_eq b xs hb hx]
        have hd : (xs.drop b).length ≤ m := by
          have h1 : xs.length ≠ 0 := fun hc =>
            hx (List.eq_nil_of_length_eq_zero hc)
          simp
          omega
        simp only [List.flatten_cons, ih _ hd, List.take_append_drop]
  exact fun xs => H xs.length xs (Nat.le_refl _)

lemma batches_true_length (b : Nat) (hb : 0 < b) : ∀ xs : List Nat,
    (batches b true xs).length = xs.length / b := by
  have H : ∀ (n : Nat) (xs : List Nat), xs.length ≤ n →
      ((chunkList b xs).filter (fun c => c.length == b)).length = xs.length / b := by
    intro n
    induction n with
    | zero =>
      intro xs h
      have hx : xs = [] := List.eq_nil_of_length_eq_zero (Nat.le_zero.mp h)
      subst hx
      simp [chunkList, chunkAux]
    | succ m ih =>
      intro xs h
      by_cases hx : xs = []
      · subst hx
        simp [chunkList, chunkAux]
      · rw [chunkList_eq b xs hb hx]
        have h0 : xs.length ≠ 0 := fun hc => hx (List.eq_nil_of_length_eq_zero hc)
        have hd : (xs.drop b).length ≤ m := by
          simp
          omega
        rw [List.filter_cons]
        by_cases hble : b ≤ xs.length
        · have htake : (xs.take b).length = b := by
            simp [Nat.min_eq_left hble]
          have hdiv : xs.length / b = (xs.length - b) / b + 1 :=
            Nat.div_eq_sub_div hb hble
          have hcond : (((xs.take b).length == b) = true) := by simp [htake]
          rw [if_pos hcond, List.length_cons, ih _ hd]
          simp only [List.length_drop]
          omega
        · have hlt : xs.length < b := Nat.lt_of_not_le hble
          have htake : (xs.take b).length = xs.length := by
            simp [Nat.min_eq_right (Nat.le_of_lt hlt)]
          have hcond : ¬ (((xs.take b).length == b) = true) := by
            simp [htake]
            omega
          have hdrop : xs.drop b = [] := by
            apply List.eq_nil_of_length_eq_zero
            simp
            omega
          have hdiv : xs.length / b = 0 := Nat.div_eq_of_lt hlt
          rw [if_neg hcond, hdrop]
          simp [chunkList, chunkAux, hdiv]
  intro xs
  simp only [batches, if_pos rfl]
  exact H xs.length xs (Nat.le_refl _)

lemma mem_batches_true_length (b : Nat) (xs c : List Nat)
    (h : c ∈ batches b true xs) : c.length = b := by
  simp only [batches, if_pos rfl] at h
  have := (List.mem_filter.mp h).2
  simpa using this

/-- The lock invariant of a training run's schedule: the update events of any
reachable trace are exactly the serialized, batch-ordered lock sections the
state accounts for, the prefetch side never runs more than the requested depth
ahead, and the open lock section (if any) is the consuming batch's. -/
lemma reach_inv (k n : Nat) (tr : List Ev) (s : Sched) (h : Reach k n tr s) :
    tr.filter isUpd = serialProj s ∧ s.prepared ≤ s.consumed + 1 + k ∧
    s.consumed ≤ s.prepared ∧
    (∀ i, s.inUpdate = Option.some i → i = s.consumed) ∧
    (s.inUpdate.isSome → s.consumed < s.prepared) := by
  induction h with
  | init => simp [serialProj]
  | step tr s e s' hr hs ih =>
    obtain ⟨ih1, ih2, ih3, ih4, ih5⟩ := ih
    cases hs with
    | prep h1 h2 =>
      refine ⟨?_, ?_, ?_, ?_, ?_⟩
      · rw [List.filter_append, ih1]
        simp [isUpd, serialProj]
      · dsimp only
        omega
      · dsimp only
        omega
      · intro i hi
        dsimp only at hi
        exact ih4 i hi
      · intro hsome
        dsimp only at hsome
        have hup := ih5 hsome
        dsimp only
        omega
    | ustart h1 h2 =>
      refine ⟨?_, ?_, ?_, ?_, ?_⟩
      · rw [List.filter_append, ih1]
        simp [isUpd, serialProj, h1]
      · dsimp only
        omega
      · dsimp only
        omega
      · intro i hi
        dsimp only at hi ⊢
        simp at hi
        omega
      · intro _
        dsimp only
        exact h2
    | uend i hu =>
      have hic : i = s.consumed := ih4 i hu
      have hlt : s.consumed < s.prepared := ih5 (by simp [hu])
      refine ⟨?_, ?_, ?_, ?_, ?_⟩
      · rw [List.filter_append, ih1]
        simp [serialProj, hu, hic, isUpd, List.range_succ]
      · dsimp only
        omega
      · dsimp only
        omega
      · intro j hj
        dsimp only at hj
        simp at hj
      · intro hsome
        dsimp only at hsome
        simp at hsome

lemma lookupVar_setVar_self (vs : List (String × Value)) (n : String)
    (v : Value) : lookupVar (setVar vs n v) n = v := by
  simp [lookupVar, setVar]

lemma lookupVar_setVar_ne (vs : List (String × Value)) (n m : String)
    (v : Value) (h : m ≠ n) : lookupVar (setVar vs n v) m = lookupVar vs m := by
  simp [lookupVar, setVar, h]

lemma storeGet_storeSet_self (st : Store) (i : Nat) (m : Model) :
    storeGet (storeSet st i m) i = Option.some m := by
  simp [storeGet, storeSet]

/-- Unfolding of run on a bound pipeline. -/
lemma run_eq_of_source (p : Pipeline) (fw : Framework)
    (sf : Nat → List Nat → List Nat) (store : Store) (b : Nat) (opts : RunOpts)
    (src : List Nat) (h : p.source = Option.some src) :
    p.run fw sf store b opts =
      Option.some
        ({ p with
            vars := ((runBatches sf src b opts).foldl
              (fun s batch => execBatch fw p.steps batch s)
              (runInit fw p.steps
                { vars := p.vars, store := store, refs := p.refs })).vars,
            refs := ((runBatches sf src b opts).foldl
              (fun s batch => execBatch fw p.steps batch s)
              (runInit fw p.steps
                { vars := p.vars, store := store, refs := p.refs })).refs },
         ((runBatches sf src b opts).foldl
            (fun s batch => execBatch fw p.steps batch s)
            (runInit fw p.steps
              { vars := p.vars, store := store, refs := p.refs })).store,
         if opts.bar then (runBatches sf src b opts).length else 0) := by
  simp only [Pipeline.run, h]

lemma run_none_of_source_none (p : Pipeline) (fw : Framework)
    (sf : Nat → List Nat → List Nat) (store : Store) (b : Nat) (opts : RunOpts)
    (h : p.source = Option.none) :
    p.run fw sf store b opts = Option.none := by
  simp only [Pipeline.run, h]

/-- One batch of the notebook's test pipeline: the model predicts, the pairs
are appended to the metrics accumulator; the store and references are
untouched. -/
lemma execBatch_test (fw : Framework) (b : List Nat) (st : RunState) (i : Nat)
    (m : Model) (hr : lookupRef st.refs "conv_nn" = Option.some i)
    (hs : storeGet st.store i = Option.some m) :
    execBatch fw test_steps b st =
      { vars := setVar (setVar st.vars "predictions"
            (Value.nats (b.map (fw.predict m)))) "metrics"
            (appendValue (lookupVar st.vars "metrics")
              (Value.metrics (predPairs fw m b))),
        store := st.store, refs := st.refs } := by
  simp only [execBatch, test_steps, List.foldl_cons, List.foldl_nil, execStep,
    hr, hs]
  have h1 : lookupVar (setVar st.vars "predictions"
      (Value.nats (b.map (fw.predict m)))) "predictions" =
      Value.nats (b.map (fw.predict m)) := lookupVar_setVar_self ..
  have h2 : lookupVar (setVar st.vars "predictions"
      (Value.nats (b.map (fw.predict m)))) "metrics" =
      lookupVar st.vars "metrics" :=
    lookupVar_setVar_ne _ _ _ _ (by decide)
  simp [h1, h2, toNats, predPairs]

/-- Folding the test pipeline's steps over a run's batches: the store and the
references are untouched and the metrics variable accumulates every batch's
prediction/target pairs in order. -/
lemma test_fold (fw : Framework) (i : Nat) (m : Model) :
    ∀ (bs : List (List Nat)) (st : RunState),
    lookupRef st.refs "conv_nn" = Option.some i →
    storeGet st.store i = Option.some m →
    (bs.foldl (fun s batch => execBatch fw test_steps batch s) st).store = st.store ∧
    (bs.foldl (fun s batch => execBatch fw test_steps batch s) st).refs = st.refs ∧
    lookupVar (bs.foldl (fun s batch => execBatch fw test_steps batch s) st).vars
        "metrics" =
      bs.foldl (fun a batch => appendValue a (Value.metrics (predPairs fw m batch)))
        (lookupVar st.vars "metrics") := by
  intro bs
  induction bs with
  | nil => intro st _ _; exact ⟨rfl, rfl, rfl⟩
  | cons b rest ih =>
    intro st hr hs
    rw [List.foldl_cons, List.foldl_cons, execBatch_test fw b st i m hr hs]
    have hr' : lookupRef st.refs "conv_nn" = Option.some i := hr
    obtain ⟨g1, g2, g3⟩ := ih
      { vars := setVar (setVar st.vars "predictions"
            (Value.nats (b.map (fw.predict m)))) "metrics"
            (appendValue (lookupVar st.vars "metrics")
              (Value.metrics (predPairs fw m b))),
        store := st.store, refs := st.refs } hr hs
    refine ⟨g1, g2, ?_⟩
    rw [g3]
    have hm : lookupVar (setVar (setVar st.vars "predictions"
        (Value.nats (b.map (fw.predict m)))) "metrics"
        (appendValue (lookupVar st.vars "metrics")
          (Value.metrics (predPairs fw m b)))) "metrics" =
        appendValue (lookupVar st.vars "metrics")
          (Value.metrics (predPairs fw m b)) := lookupVar_setVar_self ..
    rw [hm]

/-- Appending metrics values one batch after another merges the pair lists. -/
lemma foldl_metrics_acc (pss : List (List (Nat × Nat))) : ∀ acc,
    pss.foldl (fun a ps => appendValue a (Value.metrics ps))
      (Value.metrics acc) = Value.metrics (acc ++ pss.flatten) := by
  induction pss with
  | nil => intro acc; simp
  | cons ps rest ih =>
    intro acc
    rw [List.foldl_cons]
    have h1 : appendValue (Value.metrics acc) (Value.metrics ps) =
        Value.metrics (acc ++ ps) := rfl
    rw [h1, ih (acc ++ ps)]
    simp

lemma foldl_metrics_none (pss : List (List (Nat × Nat))) :
    metricPairs (pss.foldl (fun a ps => appendValue a (Value.metrics ps))
      Value.none) = pss.flatten := by
  cases pss with
  | nil => rfl
  | cons ps rest =>
    rw [List.foldl_cons]
    have h1 : appendValue Value.none (Value.metrics ps) = Value.metrics ps := rfl
    rw [h1]
    have h2 : (Value.metrics ps) = (Value.metrics ([] ++ ps)) := by simp
    rw [h2, foldl_metrics_acc]
    simp [metricPairs]

/-- One batch of the notebook's training template: the model in the store is
updated in place, the loss is saved to the current-loss variable and appended
to the loss history; the references are untouched. -/
lemma execBatch_train (fw : Framework) (b : List Nat) (st : RunState) (i : Nat)
    (m : Model) (hr : lookupRef st.refs "conv_nn" = Option.some i)
    (hs : storeGet st.store i = Option.some m) :
    execBatch fw train_steps b st =
      { vars := setVar (setVar st.vars "current_loss"
            (Value.nat (fw.trainStep m b).2)) "loss_history"
            (appendValue (lookupVar st.vars "loss_history")
              (Value.nat (fw.trainStep m b).2)),
        store := storeSet st.store i (fw.trainStep m b).1,
        refs := st.refs } := by
  simp only [execBatch, train_steps, List.foldl_cons, List.foldl_nil, execStep,
    hr, hs]
  have h1 : lookupVar (setVar st.vars "current_loss"
      (Value.nat (fw.trainStep m b).2)) "current_loss" =
      Value.nat (fw.trainStep m b).2 := lookupVar_setVar_self ..
  have h2 : lookupVar (setVar st.vars "current_loss"
      (Value.nat (fw.trainStep m b).2)) "loss_history" =
      lookupVar st.vars "loss_history" :=
    lookupVar_setVar_ne _ _ _ _ (by decide)
  simp [h1, h2]

/-- Folding the training template's steps over a run's batches: the references
are untouched, the model handle resolves to the model trained on every batch so
far, and the loss history accumulates every batch's loss in order. -/
lemma train_fold (fw : Framework) (i : Nat) :
    ∀ (bs : List (List Nat)) (st : RunState) (m : Model) (hist : List Value),
    lookupRef st.refs "conv_nn" = Option.some i →
    storeGet st.store i = Option.some m →
    lookupVar st.vars "loss_history" = Value.list hist →
    (bs.foldl (fun s batch => execBatch fw train_steps batch s) st).refs = st.refs ∧
    storeGet (bs.foldl (fun s batch => execBatch fw train_steps batch s) st).store i =
      Option.some (modelAfter fw m bs) ∧
    lookupVar (bs.foldl (fun s batch => execBatch fw train_steps batch s) st).vars
        "loss_history" =
      Value.list (hist ++ (lossesFrom fw m bs).map Value.nat) := by
  intro bs
  induction bs with
  | nil =>
    intro st m hist _ hs hh
    refine ⟨rfl, ?_, ?_⟩
    · simpa [modelAfter] using hs
    · simpa [lossesFrom] using hh
  | cons b rest ih =>
    intro st m hist hr hs hh
    rw [List.foldl_cons, execBatch_train fw b st i m hr hs]
    have hv : lookupVar (setVar (setVar st.vars "current_loss"
        (Value.nat (fw.trainStep m b).2)) "loss_history"
        (appendValue (lookupVar st.vars "loss_history")
          (Value.nat (fw.trainStep m b).2))) "loss_history" =
        Value.list (hist ++ [Value.nat (fw.trainStep m b).2]) := by
      rw [lookupVar_setVar_self, hh]
      rfl
    obtain ⟨g1, g2, g3⟩ := ih
      { vars := setVar (setVar st.vars "current_loss"
            (Value.nat (fw.trainStep m b).2)) "loss_history"
            (appendValue (lookupVar st.vars "loss_history")
              (Value.nat (fw.trainStep m b).2)),
        store := storeSet st.store i (fw.trainStep m b).1,
        refs := st.refs } (fw.trainStep m b).1
      (hist ++ [Value.nat (fw.trainStep m b).2]) hr
      (storeGet_storeSet_self ..) hv
    refine ⟨g1, ?_, ?_⟩
    · simpa [modelAfter] using g2
    · rw [g3]
      simp [lossesFrom]

/-- Run start of the training template: the loss history is re-initialized to a
fresh empty list whatever it held before, the model is created in the store and
the reference recorded. -/
lemma runInit_train (fw : Framework) (vars0 : List (String × Value))
    (store : Store) :
    runInit fw train_steps { vars := vars0, store := store, refs := [] } =
      { vars := setVar vars0 "loss_history" (Value.list []),
        store := storeSet store (freshId store) fw.initModel,
        refs := [("conv_nn", freshId store)] } := by
  simp [runInit, initVars, initModels, train_steps, lookupRef]

/-- Run start of the test pipeline: the metrics variable is re-initialized to
none whatever it held before; the store and the imported reference are
untouched. -/
lemma runInit_test (fw : Framework) (vars0 : List (String × Value))
    (store : Store) (refs0 : List (String × Nat)) :
    runInit fw test_steps { vars := vars0, store := store, refs := refs0 } =
      { vars := setVar vars0 "metrics" Value.none, store := store,
        refs := refs0 } := by
  simp [runInit, initVars, initModels, test_steps]

/-- C1: a template pipeline (built by the builder chain without a data source)
cannot be executed; binding a template to a concrete dataset subset produces an
executable pipeline; and every execution presupposes such a binding: a pipeline
that runs has a bound data source.  The builder chain never introduces a
source, so a chain starting from pipeline construction stays a template. -/
theorem C1_template_binding_execution :
    (∀ c : List (String × String), (Pipeline.create c).source = Option.none)
    ∧ (∀ p n pol, (Pipeline.init_variable p n pol).source = p.source)
    ∧ (∀ p n, (Pipeline.init_model p n).source = p.source)
    ∧ (∀ p : Pipeline, (Pipeline.to_array p).source = p.source)
    ∧ (∀ p n s l, (Pipeline.train_model p n s l).source = p.source)
    ∧ (∀ p n s md, (Pipeline.update_variable p n s md).source = p.source)
    ∧ (∀ p n q, (Pipeline.import_model p n q).source = p.source)
    ∧ (∀ p n s, (Pipeline.predict_model p n s).source = p.source)
    ∧ (∀ p pf s md, (Pipeline.gather_metrics p pf s md).source = p.source)
    ∧ (∀ p fw sf store b opts, p.source = Option.none →
        Pipeline.run p fw sf store b opts = Option.none)
    ∧ (∀ p src fw sf store b opts,
        (Pipeline.run (Pipeline.bindTo p src) fw sf store b opts).isSome)
    ∧ (∀ p fw sf store b opts, (Pipeline.run p fw sf store b opts).isSome →
        ∃ src, p.source = Option.some src) := by
  refine ⟨fun c => rfl, fun p n pol => rfl, fun p n => rfl, fun p => rfl,
    fun p n s l => rfl, fun p n s md => rfl, fun p n q => rfl,
    fun p n s => rfl, fun p pf s md => rfl, ?_, ?_, ?_⟩
  · intro p fw sf store b opts h
    exact run_none_of_source_none p fw sf store b opts h
  · intro p src fw sf store b opts
    rw [run_eq_of_source (Pipeline.bindTo p src) fw sf store b opts src rfl]
    rfl
  · intro p fw sf store b opts h
    cases hs : p.source with
    | none =>
      rw [run_none_of_source_none p fw sf store b opts hs] at h
      simp at h
    | some src => exact ⟨src, rfl⟩

/-- C1 witness: the notebook's concrete template cannot run, and binding it to
the train subset yields a pipeline whose run succeeds. -/
theorem C1_witness :
    Pipeline.run train_template fwX (fun _ l => l) [] 64 train_opts =
      Option.none ∧
    (Pipeline.run train_pipeline fwX (fun _ l => l) [] 64 train_opts).isSome := by
  constructor
  · exact C1_template_binding_execution.2.2.2.2.2.2.2.2.2.1 train_template fwX
      (fun _ l => l) [] 64 train_opts rfl
  · exact C1_template_binding_execution.2.2.2.2.2.2.2.2.2.2.1 train_template
      MNISTset.trainIdx fwX (fun _ l => l) [] 64 train_opts

/-- C2: the schedules a training run admits interleave prefetch preparation
freely ahead of consumption, yet the model-update events of every reachable
trace are exactly the serialized sequence of lock sections in batch order —
batch zero's update opens and closes before batch one's opens, and so on, with
at most the one open section of the batch being consumed — so no two batches'
weight updates ever interleave; and the prefetch side never prepares more than
the requested depth ahead of the consuming update step. -/
theorem C2_serialized_model_updates (sf : Nat → List Nat → List Nat)
    (src : List Nat) (b : Nat) (opts : RunOpts) (tr : List Ev) (s : Sched)
    (h : Reach opts.prefetch (runBatches sf src b opts).length tr s) :
    tr.filter isUpd = serialProj s ∧
    s.prepared ≤ s.consumed + 1 + opts.prefetch := by
  have hi := reach_inv opts.prefetch (runBatches sf src b opts).length tr s h
  exact ⟨hi.1, hi.2.1⟩

/-- C2 witness: a concrete schedule of a two-batch run at prefetch depth one,
in which the second batch is prepared while the first batch's update holds the
lock, and whose update events are nevertheless fully serialized. -/
theorem C2_witness :
    Reach 1
      (runBatches (fun _ l => l) [0, 1, 2, 3] 2
        { shuffle := false, n_epochs := 1, drop_last := true, bar := false,
          prefetch := 1 }).length
      [Ev.prep 0, Ev.ustart 0, Ev.prep 1, Ev.uend 0, Ev.ustart 1, Ev.uend 1]
      { prepared := 2, consumed := 2, inUpdate := Option.none } ∧
    [Ev.prep 0, Ev.ustart 0, Ev.prep 1, Ev.uend 0, Ev.ustart 1,
        Ev.uend 1].filter isUpd =
      serialProj { prepared := 2, consumed := 2, inUpdate := Option.none } := by
  have h1 : Reach 1
      (runBatches (fun _ l => l) [0, 1, 2, 3] 2
        { shuffle := false, n_epochs := 1, drop_last := true, bar := false,
          prefetch := 1 }).length
      [Ev.prep 0, Ev.ustart 0, Ev.prep 1, Ev.uend 0, Ev.ustart 1, Ev.uend 1]
      { prepared := 2, consumed := 2, inUpdate := Option.none } := by
    refine Reach.step _ _ _ _ (Reach.step _ _ _ _ (Reach.step _ _ _ _
      (Reach.step _ _ _ _ (Reach.step _ _ _ _ (Reach.step _ _ _ _ Reach.init
        (SStep.prep _ (by decide) (by decide)))
        (SStep.ustart _ (by decide) (by decide)))
        (SStep.prep _ (by decide) (by decide)))
        (SStep.uend _ 0 (by decide)))
        (SStep.ustart _ (by decide) (by decide)))
        (SStep.uend _ 1 (by decide))
  exact ⟨h1, (C2_serialized_model_updates (fun _ l => l) [0, 1, 2, 3] 2
    { shuffle := false, n_epochs := 1, drop_last := true, bar := false,
      prefetch := 1 } _ _ h1).1⟩

lemma length_flatMap_const {α β : Type} (l : List α) (L : List β) :
    (l.flatMap (fun _ => L)).length = l.length * L.length := by
  induction l with
  | nil => simp
  | cons a rest ih =>
    simp only [List.flatMap_cons, List.length_append, ih, List.length_cons]
    ring

/-- C3: run takes the positional batch size and the named options shuffle,
n_epochs, drop_last, bar and prefetch (the fields of RunOpts); a run processes
exactly the batches of the given size over each of n_epochs epochs of the
(optionally shuffled) order — with drop_last every processed batch has exactly
the batch size, without it every epoch's batches cover the whole order —
displays one progress tick per batch exactly when bar is set, and the admitted
prefetch schedules read at most the requested depth ahead. -/
theorem C3_run_options (p : Pipeline) (src : List Nat) (fw : Framework)
    (sf : Nat → List Nat → List Nat) (store : Store) (b : Nat) (opts : RunOpts)
    (hsrc : p.source = Option.some src) (hb : 0 < b) :
    (∃ q st, Pipeline.run p fw sf store b opts =
        Option.some (q, st,
          if opts.bar then (runBatches sf src b opts).length else 0))
    ∧ runBatches sf src b opts =
        (List.range opts.n_epochs).flatMap
          (fun e => batches b opts.drop_last
            (if opts.shuffle then sf e src else src))
    ∧ (opts.drop_last = true → ∀ c ∈ runBatches sf src b opts, c.length = b)
    ∧ (∀ ys : List Nat, (batches b false ys).flatten = ys)
    ∧ (opts.shuffle = false → (runBatches sf src b opts).length =
        opts.n_epochs * (batches b opts.drop_last src).length)
    ∧ (∀ tr s, Reach opts.prefetch (runBatches sf src b opts).length tr s →
        s.prepared ≤ s.consumed + 1 + opts.prefetch) := by
  refine ⟨?_, ?_, ?_, ?_, ?_, ?_⟩
  · exact ⟨_, _, run_eq_of_source p fw sf store b opts src hsrc⟩
  · simp [runBatches, epochOrder]
  · intro hdl c hc
    rw [runBatches, hdl] at hc
    obtain ⟨e, _, hce⟩ := List.mem_flatMap.mp hc
    exact mem_batches_true_length b _ c hce
  · intro ys
    simpa [batches] using chunkList_flatten b hb ys
  · intro hsh
    rw [runBatches]
    simp only [epochOrder, hsh, if_neg Bool.false_ne_true]
    rw [length_flatMap_const, List.length_range]
  · intro tr s h
    exact (reach_inv opts.prefetch (runBatches sf src b opts).length tr s h).2.1

/-- C3 witness: a two-epoch run over five samples at batch size two processes
twice the single-epoch batch count. -/
theorem C3_witness :
    (runBatches (fun _ l => l) [0, 1, 2, 3, 4] 2
        { shuffle := false, n_epochs := 2, drop_last := true, bar := true,
          prefetch := 0 }).length =
      2 * (batches 2 true [0, 1, 2, 3, 4]).length := by
  exact (C3_run_options (pipelineOf [0, 1, 2, 3, 4]) [0, 1, 2, 3, 4] fwX
    (fun _ l => l) [] 2
    { shuffle := false, n_epochs := 2, drop_last := true, bar := true,
      prefetch := 0 } rfl (by decide)).2.2.2.2.1 rfl

lemma evalOne_accuracy (ps : List (Nat × Nat)) (nC : Nat)
    (mc : Option String) :
    evalOne ps nC mc "accuracy" =
      Option.some (MetricResult.scalar (accuracy ps)) := by
  simp [evalOne]

lemma evalOne_fpr (ps : List (Nat × Nat)) (nC : Nat) :
    evalOne ps nC Option.none "false_positive_rate" =
      Option.some (MetricResult.perClass ((List.range nC).map (fprOf ps))) := by
  simp [evalOne]

lemma evalOne_fnr (ps : List (Nat × Nat)) (nC : Nat) :
    evalOne ps nC Option.none "false_negative_rate" =
      Option.some (MetricResult.perClass ((List.range nC).map (fnrOf ps))) := by
  simp [evalOne]

/-- C4: over a completed run of the test pipeline, the metrics accumulator has
collected exactly the per-batch prediction/target pairs of the whole run, in
batch order; afterwards the deferred named queries answer over that
accumulated data — accuracy for the accuracy query, and the per-class
false-positive and false-negative rates for those names with multiclass None.
The run leaves the model store untouched. -/
theorem C4_metrics_accumulation (fw : Framework)
    (sf : Nat → List Nat → List Nat) (store : Store) (b : Nat) (opts : RunOpts)
    (src : List Nat) (i : Nat) (m : Model) (vars0 : List (String × Value))
    (cfg : List (String × String)) (q : Pipeline) (st : Store) (t : Nat)
    (hm : storeGet store i = Option.some m)
    (hrun : Pipeline.run
      { config := cfg, steps := test_steps, source := Option.some src,
        vars := vars0, refs := [("conv_nn", i)] } fw sf store b opts =
      Option.some (q, st, t)) :
    metricPairs (Pipeline.get_variable q "metrics") =
      (runBatches sf src b opts).flatMap (predPairs fw m)
    ∧ st = store
    ∧ (∀ mc, evalOne ((runBatches sf src b opts).flatMap (predPairs fw m)) 10
        mc "accuracy" =
        Option.some (MetricResult.scalar
          (accuracy ((runBatches sf src b opts).flatMap (predPairs fw m)))))
    ∧ evalOne ((runBatches sf src b opts).flatMap (predPairs fw m)) 10
        Option.none "false_positive_rate" =
      Option.some (MetricResult.perClass ((List.range 10).map
        (fprOf ((runBatches sf src b opts).flatMap (predPairs fw m)))))
    ∧ evalOne ((runBatches sf src b opts).flatMap (predPairs fw m)) 10
        Option.none "false_negative_rate" =
      Option.some (MetricResult.perClass ((List.range 10).map
        (fnrOf ((runBatches sf src b opts).flatMap (predPairs fw m))))) := by
  rw [run_eq_of_source _ fw sf store b opts src rfl] at hrun
  simp only [Option.some.injEq, Prod.mk.injEq] at hrun
  obtain ⟨hq, hst, _⟩ := hrun
  rw [runInit_test fw vars0 store [("conv_nn", i)]] at hq hst
  obtain ⟨f1, f2, f3⟩ := test_fold fw i m (runBatches sf src b opts)
    { vars := setVar vars0 "metrics" Value.none, store := store,
      refs := [("conv_nn", i)] } (by simp [lookupRef]) hm
  rw [lookupVar_setVar_self] at f3
  have hflat := foldl_metrics_none ((runBatches sf src b opts).map (predPairs fw m))
  rw [List.foldl_map] at hflat
  refine ⟨?_, ?_, fun mc => evalOne_accuracy _ 10 mc, evalOne_fpr _ 10,
    evalOne_fnr _ 10⟩
  · rw [← hq]
    simp only [Pipeline.get_variable]
    rw [f3]
    rw [← List.flatMap_def] at hflat
    exact hflat
  · rw [← hst]
    exact f1

/-- C4 witness: a concrete one-batch test run over four samples, whose metrics
variable ends up holding exactly the run's prediction/target pairs. -/
theorem C4_witness :
    metricPairs (Pipeline.get_variable
      { config := [], steps := test_steps, source := Option.some [0, 1, 2, 3],
        vars := [("metrics", Value.metrics [(0, 0), (1, 1), (2, 2), (3, 3)]),
                 ("predictions", Value.nats [0, 1, 2, 3]),
                 ("metrics", Value.none)],
        refs := [("conv_nn", 0)] } "metrics") =
      (runBatches (fun _ l => l) [0, 1, 2, 3] 4
        { shuffle := false, n_epochs := 1, drop_last := true, bar := false,
          prefetch := 0 }).flatMap (predPairs fwX { weights := [] }) := by
  exact (C4_metrics_accumulation fwX (fun _ l => l) [(0, { weights := [] })] 4
    { shuffle := false, n_epochs := 1, drop_last := true, bar := false,
      prefetch := 0 } [0, 1, 2, 3] 0 { weights := [] } [] []
    { config := [], steps := test_steps, source := Option.some [0, 1, 2, 3],
      vars := [("metrics", Value.metrics [(0, 0), (1, 1), (2, 2), (3, 3)]),
               ("predictions", Value.nats [0, 1, 2, 3]),
               ("metrics", Value.none)],
      refs := [("conv_nn", 0)] } [(0, { weights := [] })] 0 rfl rfl).1

/-- C5: named variables are mutable slots of the pipeline instance.  Whatever
the pipeline's variables held before, a run of the training template starts by
re-initializing the reset-per-run loss history to a fresh empty list, and each
batch's append-mode update adds the batch's loss to the history's current
contents, so the run ends with exactly this run's losses in order; append mode
on a list value always appends rather than replaces. -/
theorem C5_variable_init_and_append (fw : Framework)
    (sf : Nat → List Nat → List Nat) (store : Store) (b : Nat) (opts : RunOpts)
    (src : List Nat) (vars0 : List (String × Value))
    (cfg : List (String × String)) (q : Pipeline) (st : Store) (t : Nat)
    (hrun : Pipeline.run
      { config := cfg, steps := train_steps, source := Option.some src,
        vars := vars0, refs := [] } fw sf store b opts =
      Option.some (q, st, t)) :
    Pipeline.get_variable q "loss_history" =
      Value.list ((lossesFrom fw fw.initModel (runBatches sf src b opts)).map
        Value.nat)
    ∧ (∀ vars1, lookupVar (initVars train_steps vars1) "loss_history" =
        Value.list [])
    ∧ (∀ l v, appendValue (Value.list l) v = Value.list (l ++ [v])) := by
  rw [run_eq_of_source _ fw sf store b opts src rfl] at hrun
  simp only [Option.some.injEq, Prod.mk.injEq] at hrun
  obtain ⟨hq, _, _⟩ := hrun
  rw [runInit_train fw vars0 store] at hq
  obtain ⟨g1, g2, g3⟩ := train_fold fw (freshId store) (runBatches sf src b opts)
    { vars := setVar vars0 "loss_history" (Value.list []),
      store := storeSet store (freshId store) fw.initModel,
      refs := [("conv_nn", freshId store)] } fw.initModel []
    (by simp [lookupRef]) (storeGet_storeSet_self ..)
    (lookupVar_setVar_self ..)
  refine ⟨?_, ?_, fun l v => rfl⟩
  · rw [← hq]
    simp only [Pipeline.get_variable]
    rw [g3]
    simp
  · intro vars1
    simp [initVars, train_steps, lookupVar_setVar_self]

/-- C5 witness: a concrete two-batch training run, starting from a variable
state holding junk, ends with the loss history equal to exactly this run's two
losses. -/
theorem C5_witness :
    Pipeline.get_variable
      { config := [], steps := train_steps, source := Option.some [0, 1, 2, 3],
        vars := [("loss_history", Value.list [Value.nat 2, Value.nat 2]),
                 ("current_loss", Value.nat 2),
                 ("loss_history", Value.list [Value.nat 2]),
                 ("current_loss", Value.nat 2),
                 ("loss_history", Value.list []),
                 ("loss_history", Value.nat 99)],
        refs := [("conv_nn", 0)] } "loss_history" =
      Value.list ((lossesFrom fwX fwX.initModel
        (runBatches (fun _ l => l) [0, 1, 2, 3] 2
          { shuffle := false, n_epochs := 1, drop_last := true, bar := false,
            prefetch := 0 })).map Value.nat) := by
  exact (C5_variable_init_and_append fwX (fun _ l => l) [] 2
    { shuffle := false, n_epochs := 1, drop_last := true, bar := false,
      prefetch := 0 } [0, 1, 2, 3] [("loss_history", Value.nat 99)] []
    { config := [], steps := train_steps, source := Option.some [0, 1, 2, 3],
      vars := [("loss_history", Value.list [Value.nat 2, Value.nat 2]),
               ("current_loss", Value.nat 2),
               ("loss_history", Value.list [Value.nat 2]),
               ("current_loss", Value.nat 2),
               ("loss_history", Value.list []),
               ("loss_history", Value.nat 99)],
      refs := [("conv_nn", 0)] }
    [(0, { weights := [2, 2] }), (0, { weights := [2] }), (0, { weights := [] })]
    0 rfl).1

lemma storeGet_filter_mem (ids : List Nat) :
    ∀ (st : List (Nat × Model)) (i : Nat),
    storeGet (st.filter (fun e => decide (e.1 ∈ ids))) i =
      if i ∈ ids then storeGet st i else Option.none := by
  intro st
  induction st with
  | nil => intro i; simp [storeGet]
  | cons e rest ih =>
    intro i
    by_cases hk : e.1 ∈ ids
    · rw [List.filter_cons_of_pos (by simpa using hk)]
      by_cases hik : i = e.1
      · subst hik
        simp [storeGet, hk]
      · simp only [storeGet, if_neg hik]
        exact ih i
    · rw [List.filter_cons_of_neg (by simpa using hk)]
      by_cases hik : i = e.1
      · subst hik
        rw [ih e.1, if_neg hk]
        simp [hk]
      · rw [ih i]
        by_cases hi : i ∈ ids
        · simp only [if_pos hi, storeGet, if_neg hik]
        · simp [hi]

/-- C6: a model handle exported by import_model is shared by reference under
its name — the importing pipeline resolves the name to the very same model
identity and hence, in every store, to the same model instance as the
originating pipeline, and a store mutation of that instance (as a training
step performs) is visible through both pipelines; the instance survives store
reclamation exactly as long as at least one live pipeline references it, and
it is referenced as long as the importing pipeline lives. -/
theorem C6_model_sharing (p q : Pipeline) (name : String) (i : Nat)
    (h : lookupRef p.refs name = Option.some i) :
    lookupRef (Pipeline.import_model q name p).refs name = Option.some i
    ∧ (∀ store : Store, resolveModel (Pipeline.import_model q name p) store name =
        resolveModel p store name)
    ∧ (∀ (store : Store) (m' : Model),
        resolveModel (Pipeline.import_model q name p) (storeSet store i m') name =
          Option.some m'
        ∧ resolveModel p (storeSet store i m') name = Option.some m')
    ∧ (∀ (ps : List Pipeline) (store : Store) (m : Model),
        storeGet (collect ps store) i = Option.some m ↔
          i ∈ liveIds ps ∧ storeGet store i = Option.some m)
    ∧ (∀ ps : List Pipeline, Pipeline.import_model q name p ∈ ps →
        i ∈ liveIds ps) := by
  have himp : lookupRef (Pipeline.import_model q name p).refs name =
      Option.some i := by
    simp [Pipeline.import_model, h, lookupRef]
  refine ⟨himp, ?_, ?_, ?_, ?_⟩
  · intro store
    rw [resolveModel, resolveModel, himp, h]
  · intro store m'
    constructor
    · simp [resolveModel, himp, storeGet_storeSet_self]
    · simp [resolveModel, h, storeGet_storeSet_self]
  · intro ps store m
    rw [collect, storeGet_filter_mem]
    by_cases hi : i ∈ liveIds ps
    · simp [hi]
    · simp [hi]
  · intro ps hmem
    rw [liveIds]
    refine List.mem_flatMap.mpr ⟨Pipeline.import_model q name p, hmem, ?_⟩
    refine List.mem_map.mpr ⟨(name, i), ?_, rfl⟩
    simp [Pipeline.import_model, h]

/-- C6 witness: importing a concrete handle into a fresh pipeline yields the
same model identity, and resolving after a store write yields the written
instance through the importing pipeline. -/
theorem C6_witness :
    lookupRef (Pipeline.import_model (Pipeline.create [])
      "m" { config := [], steps := [], source := Option.none, vars := [],
            refs := [("m", 7)] }).refs "m" = Option.some 7 ∧
    resolveModel (Pipeline.import_model (Pipeline.create [])
      "m" { config := [], steps := [], source := Option.none, vars := [],
            refs := [("m", 7)] }) (storeSet [] 7 { weights := [5] }) "m" =
      Option.some { weights := [5] } := by
  have hc := C6_model_sharing
    { config := [], steps := [], source := Option.none, vars := [],
      refs := [("m", 7)] } (Pipeline.create []) "m" 7 rfl
  exact ⟨hc.1, (hc.2.2.1 [] { weights := [5] }).1⟩

/-- C7: a dataset's train and test subsets are disjoint and together partition
all its labeled samples; partition membership never changes after
construction — binding attaches the given subset unchanged, and running a
pipeline (training, predicting included) leaves its bound subset exactly as it
was. -/
theorem C7_partition (d : Dataset) :
    (∀ i, i ∈ d.trainIdx → i ∉ d.testIdx)
    ∧ d.trainIdx ++ d.testIdx = d.allIdx
    ∧ (∀ (p : Pipeline) (src : List Nat),
        (Pipeline.bindTo p src).source = Option.some src)
    ∧ (∀ p fw sf store b opts q st t,
        Pipeline.run p fw sf store b opts = Option.some (q, st, t) →
        q.source = p.source) := by
  refine ⟨?_, ?_, fun p src => rfl, ?_⟩
  · intro i hi hti
    have h1 : i < d.nTrain := by
      simpa [Dataset.trainIdx] using hi
    have h2 : d.nTrain ≤ i := by
      obtain ⟨j, _, hj⟩ := List.mem_map.mp hti
      omega
    omega
  · have hmap : d.testIdx = (List.range d.nTest).map (fun j => d.nTrain + j) := by
      rw [Dataset.testIdx]
      exact List.map_congr_left (fun x _ => Nat.add_comm x d.nTrain)
    rw [hmap, Dataset.allIdx, Dataset.trainIdx, List.range_add]
  · intro p fw sf store b opts q st t hr
    cases hs : p.source with
    | none =>
      rw [run_none_of_source_none p fw sf store b opts hs] at hr
      simp at hr
    | some src =>
      rw [run_eq_of_source p fw sf store b opts src hs] at hr
      simp only [Option.some.injEq, Prod.mk.injEq] at hr
      obtain ⟨hq, _, _⟩ := hr
      rw [← hq]
      exact hs

/-- C7 witness: in a concrete dataset, a train sample is not a test sample. -/
theorem C7_witness : 1 ∉ Dataset.testIdx { nTrain := 2, nTest := 2 } := by
  exact (C7_partition { nTrain := 2, nTest := 2 }).1 1 (by decide)

/-- C8: save_model persists the model registered under the given name to the
given destination path, and saving modifies neither the model, nor the
pipeline, nor the rest of the store: the pipeline and the store come back
exactly as they went in, and the written file holds the registered model
itself. -/
theorem C8_save_model (p : Pipeline) (store : Store) (name path : String)
    (m : Model) (h : resolveModel p store name = Option.some m) :
    Pipeline.save_model p store name path =
      (Option.some { path := path, content := m }, p, store) := by
  simp [Pipeline.save_model, h]

/-- C8 witness: saving a concrete registered model writes it to the requested
path and returns the pipeline and store untouched. -/
theorem C8_witness :
    Pipeline.save_model
      { config := [], steps := [], source := Option.none, vars := [],
        refs := [("conv_nn", 0)] } [(0, { weights := [1] })] "conv_nn"
      "path/to/save" =
      (Option.some { path := "path/to/save", content := { weights := [1] } },
       { config := [], steps := [], source := Option.none, vars := [],
         refs := [("conv_nn", 0)] }, [(0, { weights := [1] })]) := by
  exact C8_save_model
    { config := [], steps := [], source := Option.none, vars := [],
      refs := [("conv_nn", 0)] } [(0, { weights := [1] })] "conv_nn"
    "path/to/save" { weights := [1] } rfl

/-- C9: with drop_last, one epoch over N samples at batch size B processes
exactly N / B (floor) batches, a count depending only on the number of
samples, hence independent of shuffling; concretely, one epoch at batch size
64 processes 937 batches over the 60000-sample MNIST train subset and 156 over
the 10000-sample test subset, for any length-preserving shuffle. -/
theorem C9_drop_last_batch_count :
    (∀ (b : Nat) (xs : List Nat), 0 < b →
        (batches b true xs).length = xs.length / b)
    ∧ (∀ (b : Nat) (xs ys : List Nat), 0 < b → ys.length = xs.length →
        (batches b true ys).length = (batches b true xs).length)
    ∧ (∀ (sf : Nat → List Nat → List Nat) (sh bar : Bool) (k : Nat),
        (∀ e l, (sf e l).length = l.length) →
        (runBatches sf MNISTset.trainIdx 64
            { shuffle := sh, n_epochs := 1, drop_last := true, bar := bar,
              prefetch := k }).length = 937
        ∧ (runBatches sf MNISTset.testIdx 64
            { shuffle := sh, n_epochs := 1, drop_last := true, bar := bar,
              prefetch := k }).length = 156) := by
  refine ⟨fun b xs hb => batches_true_length b hb xs, ?_, ?_⟩
  · intro b xs ys hb hlen
    rw [batches_true_length b hb xs, batches_true_length b hb ys, hlen]
  · intro sf sh bar k hsf
    have hr1 : List.range 1 = [0] := rfl
    have hd1 : (60000 : Nat) / 64 = 937 := by norm_num
    have hd2 : (10000 : Nat) / 64 = 156 := by norm_num
    constructor
    · have hlen : (epochOrder sf sh 0 MNISTset.trainIdx).length = 60000 := by
        cases sh <;> simp [epochOrder, hsf, MNISTset, Dataset.trainIdx]
      rw [runBatches, hr1]
      simp only [List.flatMap_cons, List.flatMap_nil, List.append_nil]
      rw [batches_true_length 64 (by decide), hlen, hd1]
    · have hlen : (epochOrder sf sh 0 MNISTset.testIdx).length = 10000 := by
        cases sh <;> simp [epochOrder, hsf, MNISTset, Dataset.testIdx]
      rw [runBatches, hr1]
      simp only [List.flatMap_cons, List.flatMap_nil, List.append_nil]
      rw [batches_true_length 64 (by decide), hlen, hd2]

/-- C9 witness: five samples at batch size two with drop_last give the floor
quotient of batches. -/
theorem C9_witness :
    (batches 2 true [0, 1, 2, 3, 4]).length = [0, 1, 2, 3, 4].length / 2 := by
  exact C9_drop_last_batch_count.1 2 [0, 1, 2, 3, 4] (by decide)

/-- C10: every builder method returns the pipeline itself with its step
appended and every other component of the pipeline preserved (import_model
additionally copies the imported reference), so construction chains into a
single expression; and run's value is again the pipeline — same steps, same
source, same config — on which get_variable can then be called. -/
theorem C10_builder_chaining :
    (∀ p n pol, Pipeline.init_variable p n pol =
        { p with steps := p.steps ++ [Step.initVariable n pol] })
    ∧ (∀ p n, Pipeline.init_model p n =
        { p with steps := p.steps ++ [Step.initModel n] })
    ∧ (∀ p : Pipeline, Pipeline.to_array p =
        { p with steps := p.steps ++ [Step.toArray] })
    ∧ (∀ p n s l, Pipeline.train_model p n s l =
        { p with steps := p.steps ++ [Step.trainModel n s l] })
    ∧ (∀ p n s md, Pipeline.update_variable p n s md =
        { p with steps := p.steps ++ [Step.updateVariable n s md] })
    ∧ (∀ p n q, (Pipeline.import_model p n q).steps =
          p.steps ++ [Step.importModel n]
        ∧ (Pipeline.import_model p n q).source = p.source
        ∧ (Pipeline.import_model p n q).vars = p.vars
        ∧ (Pipeline.import_model p n q).config = p.config)
    ∧ (∀ p n s, Pipeline.predict_model p n s =
        { p with steps := p.steps ++ [Step.predictModel n s] })
    ∧ (∀ p pf s md, Pipeline.gather_metrics p pf s md =
        { p with steps := p.steps ++ [Step.gatherMetrics pf s md] })
    ∧ (∀ p fw sf store b opts q st t,
        Pipeline.run p fw sf store b opts = Option.some (q, st, t) →
        q.steps = p.steps ∧ q.source = p.source ∧ q.config = p.config) := by
  refine ⟨fun p n pol => rfl, fun p n => rfl, fun p => rfl,
    fun p n s l => rfl, fun p n s md => rfl,
    fun p n q => ⟨rfl, rfl, rfl, rfl⟩, fun p n s => rfl,
    fun p pf s md => rfl, ?_⟩
  intro p fw sf store b opts q st t hr
  cases hs : p.source with
  | none =>
    rw [run_none_of_source_none p fw sf store b opts hs] at hr
    simp at hr
  | some src =>
    rw [run_eq_of_source p fw sf store b opts src hs] at hr
    simp only [Option.some.injEq, Prod.mk.injEq] at hr
    obtain ⟨hq, _, _⟩ := hr
    rw [← hq]
    exact ⟨rfl, hs, rfl⟩

/-- C10 witness: a concrete no-op run returns the very pipeline it was called
on, whose steps are unchanged. -/
theorem C10_witness :
    Pipeline.run ((pipelineOf [0, 1]).to_array) fwX (fun _ l => l) [] 2
        { shuffle := false, n_epochs := 1, drop_last := false, bar := true,
          prefetch := 0 } =
      Option.some ((pipelineOf [0, 1]).to_array, [], 1) ∧
    ((pipelineOf [0, 1]).to_array).steps = ((pipelineOf [0, 1]).to_array).steps := by
  refine ⟨rfl, ?_⟩
  exact (C10_builder_chaining.2.2.2.2.2.2.2.2 ((pipelineOf [0, 1]).to_array)
    fwX (fun _ l => l) [] 2
    { shuffle := false, n_epochs := 1, drop_last := false, bar := true,
      prefetch := 0 } ((pipelineOf [0, 1]).to_array) [] 1 rfl).1
